import Mathlib

/-
Verification of the policy package of `x893675/valhalla-common`.

The development shallowly embeds the two subsystems the claims are about:

* the condition evaluator: `ConditionMather` (src/policy/cond_matcher.go)
  together with the operator comparison functions
  (`StringEqualsFunc`, `NumericEqualsFunc`, `DateEqualsFunc`, `BoolFunc`,
  `IPAddressFunc`, ... in the policy package), and

* the wildcard pattern matcher: `RegexpMatcher.Matches` / `MustMatch` /
  `CompileWildcardRegex` / `CompileRegex` / `delimiterIndices`
  (src/policy/iam_matcher.go).

Modelling conventions:

* Go `interface{}` values that flow through the evaluator are modelled by
  the inductive type `GoAny`.  JSON decoding into `interface{}` produces
  dynamic type `string`, `float64`, `bool` or `nil` for scalars; the
  acceptable-value lists of a decoded `Condition`
  (`map[string]map[string][]string`) always have dynamic type `[]string`.
  The constructors `goInt`, `goIntList`, `goBoolList` exist so that the
  numeric and boolean comparators are modelled on their full intended
  domain (a Go type assertion `x.(int)` succeeds exactly on dynamic type
  `int`); JSON decoding never produces them.
* A failed Go type assertion (`param1.(int)` on a `float64`, ...) panics.
  Panics are modelled by `Option`: a comparator returns `none` instead of
  `some b` when the Go code would panic, and `ConditionMather` propagates
  `none`.
* Go maps are modelled as association lists; Go's (randomized) map
  iteration order is modelled by the list order, i.e. the model fixes one
  admissible execution order.  Lookup takes the first entry with the key.
* `ConditionMather` is modelled after its JSON-decoding phase: the claims
  under study quantify over decodable inputs, so the model starts from the
  decoded `ConditionContext` and `Condition` values.
* Numbers decoded from JSON (`float64`) are carried as `Rat`; no comparator
  ever reads the payload (they all type-assert first), so the payload type
  only has to be able to represent the decoded values.
-/

namespace ValhallaPolicy

/-- Dynamic (`interface{}`) values reaching the condition comparators:
JSON-decoded scalars (`goString`, `goFloat`, `goBool`, `goNull`), the
acceptable-value lists of a decoded `Condition` (`goStringList`), and the
types expected by the numeric / boolean comparators (`goInt`, `goIntList`,
`goBoolList`), which JSON decoding never produces. -/
inductive GoAny where
  | goString (s : String)
  | goFloat (q : Rat)
  | goBool (b : Bool)
  | goNull
  | goStringList (l : List String)
  | goInt (n : Int)
  | goIntList (l : List Int)
  | goBoolList (l : List Bool)
deriving DecidableEq

/-- Go type assertion `x.(string)`: succeeds exactly on dynamic type `string`. -/
def asString : GoAny → Option String
  | GoAny.goString s => some s
  | _ => none

/-- Go type assertion `x.(int)`: succeeds exactly on dynamic type `int`
(in particular it fails — panics — on a JSON-decoded number, which has
dynamic type `float64`). -/
def asInt : GoAny → Option Int
  | GoAny.goInt n => some n
  | _ => none

/-- Go type assertion `x.(bool)`. -/
def asBool : GoAny → Option Bool
  | GoAny.goBool b => some b
  | _ => none

/-- Go type assertion `x.([]string)`. -/
def asStringList : GoAny → Option (List String)
  | GoAny.goStringList l => some l
  | _ => none

/-- Go type assertion `x.([]int)`: fails — panics — on the `[]string`
values a decoded `Condition` holds. -/
def asIntList : GoAny → Option (List Int)
  | GoAny.goIntList l => some l
  | _ => none

/-- Go type assertion `x.([]bool)`. -/
def asBoolList : GoAny → Option (List Bool)
  | GoAny.goBoolList l => some l
  | _ => none

/-- `anyMatch` of the policy package: true iff some element of `values`
satisfies `compareFn` against `value`. -/
def anyMatch {α : Type} (value : α) (values : List α) (compareFn : α → α → Bool) : Bool :=
  values.any (fun v => compareFn value v)

/-- Generic equality comparison (`equals` in the policy package). -/
def equals {α : Type} [BEq α] (value : α) (values : List α) : Bool :=
  anyMatch value values (fun a b => a == b)

/-- Generic inequality comparison (`notEquals` in the policy package). -/
def notEquals {α : Type} [BEq α] (value : α) (values : List α) : Bool :=
  anyMatch value values (fun a b => !(a == b))

/-- Generic strict less-than comparison (`lessThan` in the policy package). -/
def lessThan {α : Type} [LinearOrder α] (value : α) (values : List α) : Bool :=
  anyMatch value values (fun a b => decide (a < b))

/-- Generic less-or-equal comparison (`lessThanEquals`). -/
def lessThanEquals {α : Type} [LinearOrder α] (value : α) (values : List α) : Bool :=
  anyMatch value values (fun a b => decide (a ≤ b))

/-- Generic strict greater-than comparison (`greaterThan`). -/
def greaterThan {α : Type} [LinearOrder α] (value : α) (values : List α) : Bool :=
  anyMatch value values (fun a b => decide (a > b))

/-- Generic greater-or-equal comparison (`greaterThanEquals`). -/
def greaterThanEquals {α : Type} [LinearOrder α] (value : α) (values : List α) : Bool :=
  anyMatch value values (fun a b => decide (a ≥ b))

/-- Go `strings.Contains a b` on character lists: `b` occurs as a
contiguous substring of `a`. -/
def goContains (a b : List Char) : Bool :=
  a.tails.any (fun t => b.isPrefixOf t)

/-- Go `strings.EqualFold` restricted to ASCII case folding (the inputs in
this repository are ASCII operator values). -/
def goEqualFold (a b : List Char) : Bool :=
  a.map Char.toLower == b.map Char.toLower

/-- `StringEqualsFunc`. -/
def StringEqualsFunc (param1 param2 : GoAny) : Option Bool := do
  let value ← asString param1
  let values ← asStringList param2
  pure (equals value values)

/-- `StringNotEqualsFunc`. -/
def StringNotEqualsFunc (param1 param2 : GoAny) : Option Bool := do
  let value ← asString param1
  let values ← asStringList param2
  pure (notEquals value values)

/-- `StringEqualsIgnoreCaseFunc`. -/
def StringEqualsIgnoreCaseFunc (param1 param2 : GoAny) : Option Bool := do
  let value ← asString param1
  let values ← asStringList param2
  pure (anyMatch value values (fun a b => goEqualFold a.data b.data))

/-- `StringNotEqualsIgnoreCaseFunc`. -/
def StringNotEqualsIgnoreCaseFunc (param1 param2 : GoAny) : Option Bool := do
  let value ← asString param1
  let values ← asStringList param2
  pure (anyMatch value values (fun a b => !goEqualFold a.data b.data))

/-- `StringLikeFunc`: substring containment of the acceptable value in the
context value (`strings.Contains(a, b)`). -/
def StringLikeFunc (param1 param2 : GoAny) : Option Bool := do
  let value ← asString param1
  let values ← asStringList param2
  pure (anyMatch value values (fun a b => goContains a.data b.data))

/-- `StringNotLikeFunc`. -/
def StringNotLikeFunc (param1 param2 : GoAny) : Option Bool := do
  let value ← asString param1
  let values ← asStringList param2
  pure (anyMatch value values (fun a b => !goContains a.data b.data))

/-- `NumericEqualsFunc`: `param1.(int)` and `param2.([]int)` then integer
equality against any acceptable value. -/
def NumericEqualsFunc (param1 param2 : GoAny) : Option Bool := do
  let value ← asInt param1
  let values ← asIntList param2
  pure (equals value values)

/-- `NumericNotEqualsFunc`. -/
def NumericNotEqualsFunc (param1 param2 : GoAny) : Option Bool := do
  let value ← asInt param1
  let values ← asIntList param2
  pure (notEquals value values)

/-- `NumericLessThanFunc`. -/
def NumericLessThanFunc (param1 param2 : GoAny) : Option Bool := do
  let value ← asInt param1
  let values ← asIntList param2
  pure (lessThan value values)

/-- `NumericLessThanEqualsFunc`. -/
def NumericLessThanEqualsFunc (param1 param2 : GoAny) : Option Bool := do
  let value ← asInt param1
  let values ← asIntList param2
  pure (lessThanEquals value values)

/-- `NumericGreaterThanFunc`. -/
def NumericGreaterThanFunc (param1 param2 : GoAny) : Option Bool := do
  let value ← asInt param1
  let values ← asIntList param2
  pure (greaterThan value values)

/-- `NumericGreaterThanEqualsFunc`. -/
def NumericGreaterThanEqualsFunc (param1 param2 : GoAny) : Option Bool := do
  let value ← asInt param1
  let values ← asIntList param2
  pure (greaterThanEquals value values)

/-
RFC3339 timestamps.  The date comparators call the Go standard library:
`time.Parse(time.RFC3339, s)` followed by `Time.Equal` / `Before` / `After`.
`time.Parse` on this layout accepts everything its generic layout parser
accepts (the strict-RFC3339 fast path is a refinement of it, and on
fast-path failure `Parse` falls back to the generic parser), so the model
implements the generic parser for `2006-01-02T15:04:05Z07:00`: 4-digit
year, 2-digit month 1..12, 2-digit day valid for the month in the
proleptic Gregorian calendar, literal `T`, one- or two-digit hour 0..23
(layout token `15` is not zero-padded), 2-digit minute/second 0..59,
optional fractional seconds introduced by `.` or `,` with at least one
digit (nanosecond precision, further digits consumed and ignored), and an
offset `Z` or `±hh:mm` with two digits each and no range restriction.
The result is the absolute instant as an integer number of nanoseconds
since Go's zero time (January 1, year 1, 00:00:00 UTC).  `Time.Equal`,
`Before` and `After` compare instants, i.e. integer `=`, `<`, `>` on this
representation, and Go's zero `Time` is the integer 0.
-/

/-- Decimal value of an ASCII digit. -/
def digitVal (c : Char) : Option Nat :=
  if c.isDigit then some (c.toNat - 48) else none

/-- Read exactly `n` decimal digits, most significant first, starting from
accumulator `acc`; returns the value and the remaining characters. -/
def readFixedNat (acc : Nat) : Nat → List Char → Option (Nat × List Char)
  | 0, cs => some (acc, cs)
  | _ + 1, [] => none
  | n + 1, c :: cs =>
      match digitVal c with
      | some d => readFixedNat (acc * 10 + d) n cs
      | none => none

/-- Require character `c` next. -/
def expectChar (c : Char) : List Char → Option (List Char)
  | [] => none
  | x :: rest => if x = c then some rest else none

/-- Go's `getnum(s, false)`: one decimal digit, or two when the second
character is also a digit. -/
def readFlexNum2 : List Char → Option (Nat × List Char)
  | [] => none
  | c1 :: rest =>
      match digitVal c1 with
      | none => none
      | some d1 =>
          match rest with
          | [] => some (d1, [])
          | c2 :: rest2 =>
              match digitVal c2 with
              | some d2 => some (d1 * 10 + d2, rest2)
              | none => some (d1, rest)

/-- Nanoseconds denoted by a fractional-second digit string (first nine
digits, right-padded with zeros; further digits are ignored, as in Go). -/
def nanosOf (ds : List Char) : Nat :=
  let ds9 := ds.take 9
  (ds9.foldl (fun a c => a * 10 + (c.toNat - 48)) 0) * 10 ^ (9 - ds9.length)

/-- Optional fractional seconds: Go's generic layout parser accepts `.` or
`,` followed by at least one digit (a separator without a digit leaves the
separator in place, where the offset parser then fails); no separator
means zero nanoseconds. -/
def readFraction : List Char → Option (Nat × List Char)
  | [] => some (0, [])
  | c :: rest =>
      if c = '.' ∨ c = ',' then
        let ds := rest.takeWhile Char.isDigit
        if ds = [] then none else some (nanosOf ds, rest.dropWhile Char.isDigit)
      else some (0, c :: rest)

/-- Time-zone offset in seconds: `Z`, or `+hh:mm` / `-hh:mm` with two
digits each.  Go's generic layout parser imposes no range restriction on
the offset fields. -/
def readOffset : List Char → Option (Int × List Char)
  | [] => none
  | c :: rest =>
      if c = 'Z' then some (0, rest)
      else if c = '+' ∨ c = '-' then
        match readFixedNat 0 2 rest with
        | none => none
        | some (hh, cs) =>
            match expectChar ':' cs with
            | none => none
            | some cs =>
                match readFixedNat 0 2 cs with
                | none => none
                | some (mm, cs) =>
                    some ((if c = '+' then 1 else -1) * ((hh : Int) * 3600 + (mm : Int) * 60), cs)
      else none

/-- Proleptic Gregorian leap year (as used by Go's `time` package). -/
def isLeapYear (y : Nat) : Bool :=
  y % 4 = 0 && (y % 100 ≠ 0 || y % 400 = 0)

/-- Days in a month of a given year. -/
def daysInMonth (y m : Nat) : Nat :=
  if m = 2 then (if isLeapYear y then 29 else 28)
  else if m = 4 ∨ m = 6 ∨ m = 9 ∨ m = 11 then 30
  else 31

/-- Days from January 1 of year 1 to January 1 of year `y` (negative for
year 0, the only earlier year a 4-digit field can denote). -/
def daysBeforeYear (y : Nat) : Int :=
  if y = 0 then -366
  else ((y - 1) * 365 + (y - 1) / 4 - (y - 1) / 100 + (y - 1) / 400 : Nat)

/-- Days from the 1st of January to the 1st of month `m` in year `y`. -/
def daysBeforeMonth (y m : Nat) : Nat :=
  (List.range (m - 1)).foldl (fun a i => a + daysInMonth y (i + 1)) 0

/-- Model of `time.Parse(time.RFC3339, s)` on the character list of `s`
(the generic layout parser for this layout; the strict fast path is a
refinement of it): `none` on a parse error, otherwise the instant in
nanoseconds since Go's zero time (January 1, year 1, UTC).  The hour is
read with `getnum(·, false)` (one or two digits); the fractional-second
separator may be `.` or `,`; the offset fields are not range-checked. -/
def parseRFC3339 (cs : List Char) : Option Int := do
  let (y, cs) ← readFixedNat 0 4 cs
  let cs ← expectChar '-' cs
  let (mo, cs) ← readFixedNat 0 2 cs
  let cs ← expectChar '-' cs
  let (d, cs) ← readFixedNat 0 2 cs
  let cs ← expectChar 'T' cs
  let (h, cs) ← readFlexNum2 cs
  let cs ← expectChar ':' cs
  let (mi, cs) ← readFixedNat 0 2 cs
  let cs ← expectChar ':' cs
  let (sec, cs) ← readFixedNat 0 2 cs
  let (nanos, cs) ← readFraction cs
  let (off, cs) ← readOffset cs
  if cs = [] ∧ 1 ≤ mo ∧ mo ≤ 12 ∧ 1 ≤ d ∧ d ≤ daysInMonth y mo ∧ h ≤ 23 ∧ mi ≤ 59 ∧ sec ≤ 59 then
    some (((daysBeforeYear y + (daysBeforeMonth y mo + (d - 1) : Nat)) * 86400
        + ((h * 3600 + mi * 60 + sec : Nat) : Int) - off) * 1000000000 + (nanos : Int))
  else none

/-- Model of `aTime, _ := time.Parse(time.RFC3339, s)`: the parse error is
discarded, an unparsable string yields Go's zero `Time` (instant 0). -/
def timeParseDiscard (s : String) : Int :=
  (parseRFC3339 s.data).getD 0

/-- `DateEqualsFunc`: both sides parsed as RFC3339 with the error ignored,
instants compared with `Time.Equal`. -/
def DateEqualsFunc (param1 param2 : GoAny) : Option Bool := do
  let value ← asString param1
  let values ← asStringList param2
  pure (anyMatch value values (fun a b => timeParseDiscard a == timeParseDiscard b))

/-- `DateNotEqualsFunc`. -/
def DateNotEqualsFunc (param1 param2 : GoAny) : Option Bool := do
  let value ← asString param1
  let values ← asStringList param2
  pure (anyMatch value values (fun a b => !(timeParseDiscard a == timeParseDiscard b)))

/-- `DateLessThanFunc`: `aTime.Before(bTime)`. -/
def DateLessThanFunc (param1 param2 : GoAny) : Option Bool := do
  let value ← asString param1
  let values ← asStringList param2
  pure (anyMatch value values (fun a b => decide (timeParseDiscard a < timeParseDiscard b)))

/-- `DateLessThanEqualsFunc`: `aTime.Before(bTime) || aTime.Equal(bTime)`. -/
def DateLessThanEqualsFunc (param1 param2 : GoAny) : Option Bool := do
  let value ← asString param1
  let values ← asStringList param2
  pure (anyMatch value values (fun a b =>
    decide (timeParseDiscard a < timeParseDiscard b) || timeParseDiscard a == timeParseDiscard b))

/-- `DateGreaterThanFunc`: `aTime.After(bTime)`. -/
def DateGreaterThanFunc (param1 param2 : GoAny) : Option Bool := do
  let value ← asString param1
  let values ← asStringList param2
  pure (anyMatch value values (fun a b => decide (timeParseDiscard b < timeParseDiscard a)))

/-- `DateGreaterThanEqualsFunc`: `aTime.After(bTime) || aTime.Equal(bTime)`. -/
def DateGreaterThanEqualsFunc (param1 param2 : GoAny) : Option Bool := do
  let value ← asString param1
  let values ← asStringList param2
  pure (anyMatch value values (fun a b =>
    decide (timeParseDiscard b < timeParseDiscard a) || timeParseDiscard a == timeParseDiscard b))

/-- `BoolFunc`: `param1.(bool)` and `param2.([]bool)` then equality. -/
def BoolFunc (param1 param2 : GoAny) : Option Bool := do
  let value ← asBool param1
  let values ← asBoolList param2
  pure (equals value values)

/-
IP addresses.  The IP comparators call `net.ParseIP`, `net.ParseCIDR` and
`net.IP.Equal` / `net.IPNet.Contains` from the Go standard library, which
are modelled on byte lists:

* `net.ParseIP` dispatches on the first of `.`, `:`, `%` in the string:
  `.` selects the IPv4 dotted-decimal parser (four octets 0..255, one to
  three digits, no leading zeros as of Go 1.17), `:` the IPv6 parser
  (hex groups of at most four digits separated by `:`, at most one `::`
  ellipsis expanding to zero groups or more, an optional trailing
  dotted-decimal IPv4 occupying the last four bytes, `%`-zones rejected
  since `net.ParseIP` discards zoned results), `%` or no separator is an
  error.  The result is always the 16-byte form (`As16`), IPv4 addresses
  as the IPv4-mapped `::ffff:a.b.c.d`.
* `net.IP.Equal` is byte equality for equal lengths, and 4-in-6 equality
  between a 4-byte address and an IPv4-mapped 16-byte one.
* `net.ParseCIDR` splits at the first `/`; the address parses as above
  and stays 4 bytes for dotted-decimal and 16 bytes otherwise; the prefix
  length is a non-empty run of decimal digits (redundant leading zeros
  accepted, as in Go's `dtoi`) bounded by 32 resp. 128 bits.
* `net.IPNet.Contains` normalizes via `To4` (network and queried address)
  exactly as `networkNumberAndMask` does in the Go source, then compares
  the masked bytes; differing normalized lengths never match.
-/

/-- Go `strings.Split(s, sep)` for a single-character separator: the
(always non-empty) list of chunks between occurrences of `sep`. -/
def splitOnChar (sep : Char) : List Char → List (List Char)
  | [] => [[]]
  | c :: cs =>
      if c = sep then [] :: splitOnChar sep cs
      else
        match splitOnChar sep cs with
        | [] => [[c]]
        | g :: gs => (c :: g) :: gs

/-- One IPv4 dotted-decimal octet: 1–3 decimal digits, no leading zero,
value at most 255. -/
def parseIPv4Octet (cs : List Char) : Option Nat :=
  match cs with
  | [] => none
  | c :: rest =>
      if !(c :: rest).all Char.isDigit then none
      else if c = '0' ∧ rest ≠ [] then none
      else if (c :: rest).length > 3 then none
      else
        let v := (c :: rest).foldl (fun a d => a * 10 + (d.toNat - 48)) 0
        if v ≤ 255 then some v else none

/-- The dotted-decimal IPv4 parser: exactly four octets as a 4-byte
list. -/
def parseIPv4 (cs : List Char) : Option (List Nat) :=
  match (splitOnChar '.' cs).mapM parseIPv4Octet with
  | some [a, b, c, d] => some [a, b, c, d]
  | _ => none

/-- Value of a hexadecimal digit. -/
def hexDigitVal (c : Char) : Option Nat :=
  if c.isDigit then some (c.toNat - 48)
  else if 'a' ≤ c ∧ c ≤ 'f' then some (c.toNat - 87)
  else if 'A' ≤ c ∧ c ≤ 'F' then some (c.toNat - 55)
  else none

/-- One 16-bit hex group of an IPv6 address: at least one and at most four
hex digits (Go fails on a fifth digit). -/
def readHexGroup (s : List Char) : Option (Nat × List Char) :=
  let ds := s.takeWhile (fun c => (hexDigitVal c).isSome)
  if ds = [] then none
  else if ds.length > 4 then none
  else some (ds.foldl (fun a c => a * 16 + (hexDigitVal c).getD 0) 0,
    s.dropWhile (fun c => (hexDigitVal c).isSome))

/-- The group loop of Go's IPv6 parser (`netip.parseIPv6`): `i` counts
bytes written so far, `ellipsis` the byte position of a `::` if seen,
`bytes` the bytes written.  Each iteration reads one hex group (or the
trailing dotted-decimal IPv4) and the following separator.  Returns the
bytes and ellipsis position on loop exit.  The loop body runs at most
eight times (`i` grows by two per continued iteration under `i < 16`), so
the fuel of eight is never exhausted. -/
def parseIPv6Loop : Nat → List Char → Nat → Option Nat → List Nat →
    Option (List Nat × Option Nat)
  | 0, _, _, _, _ => none
  | fuel + 1, s, i, ellipsis, bytes =>
      match readHexGroup s with
      | none => none
      | some (acc, rest) =>
          match rest with
          | '.' :: _ =>
              if ellipsis.isNone ∧ i ≠ 12 then none
              else if i + 4 > 16 then none
              else
                match parseIPv4 s with
                | none => none
                | some b4 => some (bytes ++ b4, ellipsis)
          | _ =>
              let bytes2 := bytes ++ [acc / 256, acc % 256]
              let i2 := i + 2
              match rest with
              | [] => some (bytes2, ellipsis)
              | [':'] => none
              | ':' :: ':' :: rest2 =>
                  if ellipsis.isSome then none
                  else if rest2 = [] then some (bytes2, some i2)
                  else if i2 < 16 then parseIPv6Loop fuel rest2 i2 (some i2) bytes2
                  else none
              | ':' :: rest2 =>
                  if i2 < 16 then parseIPv6Loop fuel rest2 i2 ellipsis bytes2
                  else none
              | _ => none

/-- After the loop: expand the `::` ellipsis with zero bytes to reach 16
bytes; fewer than 16 bytes without an ellipsis, or exactly 16 bytes with
one, is an error. -/
def parseIPv6Finalize (bytes : List Nat) (ellipsis : Option Nat) : Option (List Nat) :=
  if bytes.length < 16 then
    match ellipsis with
    | none => none
    | some e => some (bytes.take e ++ List.replicate (16 - bytes.length) 0 ++ bytes.drop e)
  else
    match ellipsis with
    | none => some bytes
    | some _ => none

/-- The IPv6 textual parser (`netip.parseIPv6` as called by `net.ParseIP`
and `net.ParseCIDR`, which both discard zoned addresses, so a `%` is an
error): the 16-byte value. -/
def parseIPv6 (s : List Char) : Option (List Nat) :=
  if s.contains '%' then none
  else
    match s with
    | ':' :: ':' :: rest =>
        if rest = [] then some (List.replicate 16 0)
        else
          match parseIPv6Loop 8 rest 0 (some 0) [] with
          | none => none
          | some (bytes, ellipsis) => parseIPv6Finalize bytes ellipsis
    | _ =>
        match parseIPv6Loop 8 s 0 none [] with
        | none => none
        | some (bytes, ellipsis) => parseIPv6Finalize bytes ellipsis

/-- The 12-byte prefix of an IPv4-mapped IPv6 address (`::ffff:0:0/96`). -/
def v4InV6Prefix : List Nat :=
  [0, 0, 0, 0, 0, 0, 0, 0, 0, 0, 255, 255]

/-- Model of `net.ParseIP`: dispatch on the first of `.`, `:`, `%`; the
result is the 16-byte form (IPv4 as IPv4-mapped), or `none` (Go `nil`). -/
def ParseIP (s : List Char) : Option (List Nat) :=
  match s.find? (fun c => c == '.' || c == ':' || c == '%') with
  | some '.' => (parseIPv4 s).map (fun b4 => v4InV6Prefix ++ b4)
  | some ':' => parseIPv6 s
  | _ => none

/-- The CIDR prefix length: a non-empty run of decimal digits whose value
is at most the address bit length (Go's `dtoi` accepts redundant leading
zeros here). -/
def parseMaskBits (bits : Nat) (cs : List Char) : Option Nat :=
  if cs = [] then none
  else if !cs.all Char.isDigit then none
  else
    let v := cs.foldl (fun a d => a * 10 + (d.toNat - 48)) 0
    if v ≤ bits then some v else none

/-- Model of `net.ParseCIDR`: the address before the first `/` (4 bytes
for dotted-decimal, 16 bytes otherwise) and the prefix length after it
(at most 32 resp. 128). -/
def ParseCIDR (cs : List Char) : Option (List Nat × Nat) :=
  let addrPart := cs.takeWhile (fun c => c ≠ '/')
  let rest := cs.dropWhile (fun c => c ≠ '/')
  match rest with
  | [] => none
  | _ :: maskPart =>
      match addrPart.find? (fun c => c == '.' || c == ':' || c == '%') with
      | some '.' => do
          let b4 ← parseIPv4 addrPart
          let n ← parseMaskBits 32 maskPart
          pure (b4, n)
      | some ':' => do
          let b16 ← parseIPv6 addrPart
          let n ← parseMaskBits 128 maskPart
          pure (b16, n)
      | _ => none

/-- `net.IP.To4`: the 4-byte form of a 4-byte or IPv4-mapped 16-byte
address. -/
def ipTo4 (ip : List Nat) : Option (List Nat) :=
  if ip.length = 4 then some ip
  else if ip.length = 16 ∧ ip.take 12 = v4InV6Prefix then some (ip.drop 12)
  else none

/-- `net.IP.Equal`: byte equality at equal lengths, 4-in-6 equality
across lengths. -/
def ipEqual (a b : List Nat) : Bool :=
  if a.length = b.length then a == b
  else if a.length = 4 ∧ b.length = 16 then
    decide (b.take 12 = v4InV6Prefix ∧ a = b.drop 12)
  else if a.length = 16 ∧ b.length = 4 then
    decide (a.take 12 = v4InV6Prefix ∧ b = a.drop 12)
  else false

/-- One byte of a CIDR mask with `r` leading one bits (clamped at 8). -/
def maskByte (r : Nat) : Nat :=
  256 - 2 ^ (8 - min r 8)

/-- `net.CIDRMask n bits` as a byte list. -/
def cidrMask (n bits : Nat) : List Nat :=
  (List.range (bits / 8)).map (fun i => maskByte (n - 8 * i))

/-- `networkNumberAndMask` from the Go source: normalize the network
address via `To4`, dropping the first 12 mask bytes when a 16-byte mask
meets a 4-byte normalized address. -/
def networkNumberAndMask (addrBytes : List Nat) (n : Nat) :
    Option (List Nat × List Nat) :=
  let m := cidrMask n (8 * addrBytes.length)
  match ipTo4 addrBytes with
  | some ip4 => if addrBytes.length = 16 then some (ip4, m.drop 12) else some (ip4, m)
  | none => if addrBytes.length = 16 then some (addrBytes, m) else none

/-- `net.IPNet.Contains`: normalize the queried address via `To4`, require
equal lengths, and compare the masked bytes. -/
def ipNetContains (addrBytes : List Nat) (n : Nat) (ip : List Nat) : Bool :=
  match networkNumberAndMask addrBytes n with
  | none => false
  | some (nn, m) =>
      let ip2 := match ipTo4 ip with
        | some x => x
        | none => ip
      if ip2.length = nn.length then
        List.zipWith (fun a b => a &&& b) nn m == List.zipWith (fun a b => a &&& b) ip2 m
      else false

/-- `IPAddressFunc`: the context value must parse as an IP literal
(otherwise `false`); each acceptable value is tried as an IP literal
(equality) and, failing that, as a CIDR block (containment); a value that
parses as neither never matches. -/
def IPAddressFunc (param1 param2 : GoAny) : Option Bool := do
  let value ← asString param1
  let values ← asStringList param2
  match ParseIP value.data with
  | none => pure false
  | some requestIP =>
      pure (anyMatch value values (fun _ policyValue =>
        match ParseIP policyValue.data with
        | some policyIP => ipEqual requestIP policyIP
        | none =>
            match ParseCIDR policyValue.data with
            | some (addr, n) => ipNetContains addr n requestIP
            | none => false))

/-- `NotIPAddressFunc`: as `IPAddressFunc` with each individual test
negated (an acceptable value that parses as neither IP nor CIDR still
never matches). -/
def NotIPAddressFunc (param1 param2 : GoAny) : Option Bool := do
  let value ← asString param1
  let values ← asStringList param2
  match ParseIP value.data with
  | none => pure false
  | some requestIP =>
      pure (anyMatch value values (fun _ policyValue =>
        match ParseIP policyValue.data with
        | some policyIP => !ipEqual requestIP policyIP
        | none =>
            match ParseCIDR policyValue.data with
            | some (addr, n) => !ipNetContains addr n requestIP
            | none => false))

/-- `conditionOperatorFuncMap`: the known operator names and their
comparison functions. -/
def conditionOperatorFuncMap : String → Option (GoAny → GoAny → Option Bool)
  | "StringEquals" => some StringEqualsFunc
  | "StringNotEquals" => some StringNotEqualsFunc
  | "StringEqualsIgnoreCase" => some StringEqualsIgnoreCaseFunc
  | "StringNotEqualsIgnoreCase" => some StringNotEqualsIgnoreCaseFunc
  | "StringLike" => some StringLikeFunc
  | "StringNotLike" => some StringNotLikeFunc
  | "NumericEquals" => some NumericEqualsFunc
  | "NumericNotEquals" => some NumericNotEqualsFunc
  | "NumericLessThan" => some NumericLessThanFunc
  | "NumericLessThanEquals" => some NumericLessThanEqualsFunc
  | "NumericGreaterThan" => some NumericGreaterThanFunc
  | "NumericGreaterThanEquals" => some NumericGreaterThanEqualsFunc
  | "DateEquals" => some DateEqualsFunc
  | "DateNotEquals" => some DateNotEqualsFunc
  | "DateLessThan" => some DateLessThanFunc
  | "DateLessThanEquals" => some DateLessThanEqualsFunc
  | "DateGreaterThan" => some DateGreaterThanFunc
  | "DateGreaterThanEquals" => some DateGreaterThanEqualsFunc
  | "Bool" => some BoolFunc
  | "IPAddress" => some IPAddressFunc
  | "NotIPAddress" => some NotIPAddressFunc
  | _ => none

/-- A decoded `ConditionValue` (`map[string][]string`): attribute name to
acceptable values, as an association list. -/
abbrev ConditionValue := List (String × List String)

/-- A decoded `Condition` (`map[string]ConditionValue`): operator name to
attribute block, as an association list. -/
abbrev Condition := List (String × ConditionValue)

/-- A decoded `ConditionContext` (`map[string]any`). -/
abbrev ConditionContext := List (String × GoAny)

/-- Go map lookup `condsContext[condKey]` on the association list. -/
def lookupCtx (ctx : ConditionContext) (k : String) : Option GoAny :=
  (ctx.find? (fun p => p.1 == k)).map Prod.snd

/-- The inner loop of `ConditionMather` over one operator's attribute
block: a missing attribute or a failed comparison returns `false, nil`
for the whole evaluation; a comparator panic (`none`) propagates. -/
def evalConditionValue (ctx : ConditionContext) (fn : GoAny → GoAny → Option Bool) :
    ConditionValue → Option Bool
  | [] => some true
  | (condKey, v1) :: rest =>
      match lookupCtx ctx condKey with
      | none => some false
      | some cv =>
          match fn cv (GoAny.goStringList v1) with
          | none => none
          | some false => some false
          | some true => evalConditionValue ctx fn rest

/-- `ConditionMather` after JSON decoding (the claims quantify over
decodable inputs).  Result `some b` models a Go return of `(b, nil)`;
result `none` models a runtime panic inside a comparison function.  An
operator name absent from `conditionOperatorFuncMap` returns `false, nil`
at once. -/
def ConditionMather (ctx : ConditionContext) : Condition → Option Bool
  | [] => some true
  | (k, cond) :: rest =>
      match conditionOperatorFuncMap k with
      | none => some false
      | some fn =>
          match evalConditionValue ctx fn cond with
          | none => none
          | some false => some false
          | some true => ConditionMather ctx rest

/-
The wildcard pattern matcher (src/policy/iam_matcher.go).

`CompileWildcardRegex` builds the regexp2 pattern `^ ... $` from a wildcard
pattern by turning each `*` into `.*` and passing every other character
through `regexp.QuoteMeta`.  A quoted character is a literal single-character
match, so the compiled artifact is modelled as a list of `GlobPart`s — one
per source character.  Matching follows the regexp2 engine's semantics for
such a pattern with default options (as used by `regexp2.Compile` here):
`.` matches any character except a line feed, `^` matches only at the start
of the input, and `$` matches at the end of the input or immediately before
a final line feed.  `MatchString` searches unanchored, but with the leading
`^` a match can only start at position 0.  The engine itself cannot fail on
these always-well-formed patterns; its only documented match-time failure is
a wall-clock timeout (`MatchTimeout`, 250ms), which has no deterministic
model — `MatchError` exists as the type of that failure so that the error
plumbing of `Matches`/`MustMatch` is represented, but no model execution
produces one.

`CompileWildcardRegex` iterates over the BYTES of the Go string and quotes
each non-`*` byte with `regexp.QuoteMeta(string(c))`, where the conversion
`string(c)` re-encodes the byte value as a rune: every pattern byte becomes
one literal rune (code point = byte value) in the compiled expression,
while the engine matches against the runes of the candidate.  The model
reproduces this: the pattern's characters are expanded to their UTF-8
bytes, and each byte becomes a literal single-rune matcher (or `.*` for
the `*` byte, which occurs only as the encoding of `*` itself).  ASCII
patterns therefore match their own text; a multi-byte character in a
pattern is split into bytes that match the corresponding Latin-1 runes,
not the original character.
-/

/-- The only run-time failure `regexp2.MatchString` can report with these
patterns: exceeding the 250ms `MatchTimeout`.  The deterministic model
never produces it. -/
inductive MatchError where
  | timeout
deriving DecidableEq

/-- One character of a compiled wildcard pattern: a quoted literal, or `*`
compiled to `.*`. -/
inductive GlobPart where
  | lit (c : Char)
  | star
deriving DecidableEq

/-- The UTF-8 encoding of a character, as byte values. -/
def utf8Bytes (c : Char) : List Nat :=
  let v := c.toNat
  if v < 128 then [v]
  else if v < 2048 then [192 + v / 64, 128 + v % 64]
  else if v < 65536 then [224 + v / 4096, 128 + v / 64 % 64, 128 + v % 64]
  else [240 + v / 262144, 128 + v / 4096 % 64, 128 + v / 64 % 64, 128 + v % 64]

/-- `CompileWildcardRegex`: per byte of the pattern, the `*` byte becomes
`.*` and every other byte is quoted to a literal rune whose code point is
that byte's value (`regexp.QuoteMeta(string(c))` on a byte `c`). -/
def CompileWildcardRegex (pattern : List Char) : List GlobPart :=
  ((pattern.map utf8Bytes).flatten).map
    (fun b => if b = 42 then GlobPart.star else GlobPart.lit (Char.ofNat b))

/-- The backtracking loop for `.*`: try the continuation `k` on every
suffix reachable by consuming non-newline characters. -/
def starLoop (k : List Char → Bool) : List Char → Bool
  | [] => k []
  | x :: xs => k (x :: xs) || (!(x == '\n') && starLoop k xs)

/-- Anchored matching of a compiled wildcard pattern: a literal consumes
exactly its character, `.*` consumes any run of non-newline characters. -/
def globMatch : List GlobPart → List Char → Bool
  | [], xs => xs.isEmpty
  | GlobPart.lit c :: ps, xs =>
      match xs with
      | [] => false
      | x :: rest => c == x && globMatch ps rest
  | GlobPart.star :: ps, xs => starLoop (globMatch ps) xs

/-- `regexp2.Regexp.MatchString` for a compiled `^ ... $` wildcard pattern:
the whole input matches, where the final `$` may also sit just before one
trailing line feed. -/
def regexp2MatchString (parts : List GlobPart) (s : List Char) : Bool :=
  globMatch parts s || (s.getLast? == some '\n' && globMatch parts s.dropLast)

/-- The matcher's LRU cache, keyed by the literal pattern string.  Eviction
and recency bookkeeping do not affect values, so a cache state is modelled
as the association list of live entries; `Add` puts the new entry in
front, and lookup takes the first entry with the key. -/
abbrev RegexpCache := List (List Char × List GlobPart)

/-- `RegexpMatcher.get`. -/
def cacheGet (cache : RegexpCache) (pattern : List Char) : Option (List GlobPart) :=
  (cache.find? (fun e => e.1 == pattern)).map Prod.snd

/-- `RegexpMatcher.set`. -/
def cacheSet (cache : RegexpCache) (pattern : List Char) (reg : List GlobPart) : RegexpCache :=
  (pattern, reg) :: cache

/-- Every reachable cache state only holds entries the matcher itself
compiled: the value of an entry is the compilation of its key.  Any state
obtained from the empty cache by `cacheSet` inserts and arbitrary LRU
evictions satisfies this. -/
def CoherentCache (cache : RegexpCache) : Prop :=
  ∀ e ∈ cache, e.2 = CompileWildcardRegex e.1

/-- `RegexpMatcher.matches`: walk the haystack; an element without `*`
must equal the needle exactly; an element with `*` is fetched from the
cache or compiled (and then cached), and evaluated against the needle.
Returns the Go results `(bool, error)` together with the updated cache. -/
def matchesAux (needle : List Char) :
    RegexpCache → List (List Char) → (Bool × Option MatchError) × RegexpCache
  | cache, [] => ((false, none), cache)
  | cache, h :: rest =>
      if !h.contains '*' then
        if h == needle then ((true, none), cache)
        else matchesAux needle cache rest
      else
        match cacheGet cache h with
        | some reg =>
            if regexp2MatchString reg needle then ((true, none), cache)
            else matchesAux needle cache rest
        | none =>
            let reg := CompileWildcardRegex h
            let cache1 := cacheSet cache h reg
            if regexp2MatchString reg needle then ((true, none), cache1)
            else matchesAux needle cache1 rest

/-- `RegexpMatcher.Matches` on an explicit cache state: split the pattern
list on `,` and delegate to `matchesAux`. -/
def MatchesSt (cache : RegexpCache) (key1 key2 : List Char) :
    (Bool × Option MatchError) × RegexpCache :=
  matchesAux key1 cache (splitOnChar ',' key2)

/-- `RegexpMatcher.Matches` as observed by a caller (the cache-independence
theorem for claim C7 lets any coherent cache state stand in for the empty
one). -/
def Matches (key1 key2 : List Char) : Bool × Option MatchError :=
  (MatchesSt [] key1 key2).1

/-- The body of `RegexpMatcher.MustMatch` applied to the result of
`Matches`: a non-nil error yields `false`, otherwise the boolean. -/
def mustMatchResult (r : Bool × Option MatchError) : Bool :=
  match r with
  | (_, some _) => false
  | (ok, none) => ok

/-- `RegexpMatcher.MustMatch`. -/
def MustMatch (key1 key2 : List Char) : Bool :=
  mustMatchResult (Matches key1 key2)

/-
The template compiler (`CompileRegex` / `delimiterIndices`).
-/

/-- `delimiterIndices`, exactly as in the source: `level` counts nesting,
`idx` remembers where the current first-level group opened, and each
completed first-level group appends its start index and one past its end
index.  A close that drives the counter negative, or a non-zero counter at
the end of the string, is the unbalanced-braces error. -/
def delimiterIndicesAux (delimiterStart delimiterEnd : Char) :
    List Char → Nat → Int → Nat → List Nat → Except String (List Nat)
  | [], _, level, _, idxs =>
      if level ≠ 0 then Except.error "Unbalanced braces" else Except.ok idxs
  | c :: cs, i, level, idx, idxs =>
      if c = delimiterStart then
        delimiterIndicesAux delimiterStart delimiterEnd cs (i + 1) (level + 1)
          (if level + 1 = 1 then i else idx) idxs
      else if c = delimiterEnd then
        if level - 1 = 0 then
          delimiterIndicesAux delimiterStart delimiterEnd cs (i + 1) (level - 1) idx
            (idxs ++ [idx, i + 1])
        else if level - 1 < 0 then Except.error "Unbalanced braces"
        else delimiterIndicesAux delimiterStart delimiterEnd cs (i + 1) (level - 1) idx idxs
      else delimiterIndicesAux delimiterStart delimiterEnd cs (i + 1) level idx idxs

/-- `delimiterIndices(s, delimiterStart, delimiterEnd)`. -/
def delimiterIndices (s : List Char) (delimiterStart delimiterEnd : Char) :
    Except String (List Nat) :=
  delimiterIndicesAux delimiterStart delimiterEnd s 0 0 0 []

/-- The characters `regexp.QuoteMeta` escapes. -/
def quoteMetaSpecials : List Char :=
  "\\.+*?()|[]\x7b\x7d^$".data

/-- Go `regexp.QuoteMeta` on a character list. -/
def quoteMeta (s : List Char) : List Char :=
  s.foldr (fun c acc => if c ∈ quoteMetaSpecials then '\\' :: c :: acc else c :: acc) []

/-- `s[a:b]` on a character list. -/
def sliceChars (s : List Char) (a b : Nat) : List Char :=
  (s.take b).drop a

/-- The pattern-assembly loop of `CompileRegex`: for each first-level
delimiter group `[a, b)` append the quoted raw span before it and the raw
regex fragment between the delimiters in a capture group, then quote the
trailing span. -/
def compileRegexBody (tpl : List Char) : Nat → List Nat → List Char
  | e, a :: b :: rest =>
      quoteMeta (sliceChars tpl e a) ++ '(' :: sliceChars tpl (a + 1) (b - 1)
        ++ ')' :: compileRegexBody tpl b rest
  | e, _ => quoteMeta (tpl.drop e)

/-- `CompileRegex`: validate delimiter balance first — an unbalanced
template is a structural error and nothing is compiled — then assemble the
anchored pattern `^ ... $`.  The engine compilation of the assembled
pattern and of the per-variable sub-patterns (`regexp2.Compile`) is not
modelled; the claim under study concerns the validation phase. -/
def CompileRegex (tpl : List Char) (delimiterStart delimiterEnd : Char) :
    Except String (List Char) :=
  match delimiterIndices tpl delimiterStart delimiterEnd with
  | Except.error e => Except.error e
  | Except.ok idxs => Except.ok ('^' :: compileRegexBody tpl 0 idxs ++ ['$'])

/-- Whether an `Except` result is the error case. -/
def isError {ε α : Type} : Except ε α → Bool
  | Except.error _ => true
  | Except.ok _ => false

/-- The claim's description of delimiter validation: walking the template
with a counter (incremented on an open delimiter, decremented on a close),
a close with the counter already at zero, or a final non-zero counter, is
a violation. -/
def unbalancedDelims (delimiterStart delimiterEnd : Char) : List Char → Int → Bool
  | [], level => decide (level ≠ 0)
  | c :: cs, level =>
      if c = delimiterStart then unbalancedDelims delimiterStart delimiterEnd cs (level + 1)
      else if c = delimiterEnd then
        if level = 0 then true else unbalancedDelims delimiterStart delimiterEnd cs (level - 1)
      else unbalancedDelims delimiterStart delimiterEnd cs level

/-
Specification-side definitions, used to state the claims against the model.
-/

/-- Declarative wildcard matching, following the specification's words: the
pattern is read left to right, a literal character matches exactly itself,
and each `*` matches zero or more arbitrary characters — amended by the
regex semantics of `.*`: the filler cannot contain a line feed. -/
inductive GlobMatches : List GlobPart → List Char → Prop where
  | nil : GlobMatches [] []
  | lit {c : Char} {ps : List GlobPart} {xs : List Char} :
      GlobMatches ps xs → GlobMatches (GlobPart.lit c :: ps) (c :: xs)
  | star {ps : List GlobPart} {xs : List Char} (filler : List Char) :
      (∀ c ∈ filler, c ≠ '\n') → GlobMatches ps xs →
      GlobMatches (GlobPart.star :: ps) (filler ++ xs)

/-- Cache-free reference semantics of `RegexpMatcher.matches`: what the
loop computes when every wildcard element is compiled afresh. -/
def matchesPure (needle : List Char) : List (List Char) → Bool
  | [] => false
  | h :: rest =>
      if !h.contains '*' then (h == needle) || matchesPure needle rest
      else regexp2MatchString (CompileWildcardRegex h) needle || matchesPure needle rest

/-- A decoded `Condition` contains an operator name outside the known
operator set. -/
def hasUnknownOperator (conds : Condition) : Bool :=
  conds.any (fun kc => (conditionOperatorFuncMap kc.1).isNone)

/-- A decoded `Condition` contains a known-operator block one of whose
attribute names is absent from the context. -/
def hasAbsentAttribute (ctx : ConditionContext) (conds : Condition) : Bool :=
  conds.any (fun kc =>
    (conditionOperatorFuncMap kc.1).isSome && kc.2.any (fun kv => (lookupCtx ctx kv.1).isNone))

/-
Supporting lemmas.
-/

/-- A separator-free string splits into the single chunk itself. -/
theorem splitOnChar_of_not_mem {sep : Char} : ∀ {s : List Char}, sep ∉ s →
    splitOnChar sep s = [s] := by
  intro s
  induction s with
  | nil => intro _; rfl
  | cons c cs ih =>
      intro h
      have hc : ¬ c = sep := fun hcs => h (hcs ▸ List.mem_cons_self c cs)
      have hcs : sep ∉ cs := fun hm => h (List.mem_cons_of_mem c hm)
      simp only [splitOnChar, if_neg hc, ih hcs]

/-
Claim C10: `MustMatch` collapses every matcher error to `false`.
-/

/-- C10: `MustMatch(key1, key2)` is true exactly when `Matches(key1, key2)`
returns `(true, nil)`; any error outcome of the underlying matcher is
collapsed to the boolean `false`, indistinguishable from a non-match. -/
theorem mustMatch_collapses_errors :
    (∀ key1 key2 : List Char, MustMatch key1 key2 = true ↔ Matches key1 key2 = (true, none))
    ∧ (∀ (b : Bool) (e : MatchError), mustMatchResult (b, some e) = false) := by
  constructor
  · intro key1 key2
    unfold MustMatch mustMatchResult
    rcases hm : Matches key1 key2 with ⟨ok, err⟩
    cases err with
    | none => cases ok <;> simp
    | some e => simp
  · intro b e
    rfl

/-
Claim C1: the numeric comparators.  `NumericEqualsFunc` and its five
siblings type-assert `param1.(int)` and `param2.([]int)`.  The evaluator
hands them the JSON-decoded context scalar (dynamic type `float64` for a
JSON number, never `int`) and the decoded acceptable-value list (dynamic
type `[]string`, never `[]int`), so every numeric condition evaluation
panics instead of parsing and comparing integers.
-/

/-- C1: evaluating a `NumericEquals` condition panics (`none`): the
comparator's type assertions fail on a JSON-decoded number and on the
`[]string` acceptable values — and would fail on `param2` even if the
context value had dynamic type `int`. -/
theorem numeric_operators_panic :
    NumericEqualsFunc (GoAny.goFloat 3) (GoAny.goStringList ["3"]) = none
    ∧ NumericEqualsFunc (GoAny.goInt 3) (GoAny.goStringList ["3"]) = none
    ∧ NumericLessThanFunc (GoAny.goFloat 3) (GoAny.goStringList ["5"]) = none
    ∧ ConditionMather [("n", GoAny.goFloat 3)] [("NumericEquals", [("n", ["3"])])] = none := by
  refine ⟨rfl, rfl, rfl, rfl⟩

/-
Claim C2: totality of the comparators.  `BoolFunc` type-asserts
`param2.([]bool)` but is always handed the `[]string` acceptable values of
the decoded condition, so every `Bool` condition evaluation panics; the
numeric comparators panic likewise (claim C1).
-/

/-- C2: evaluating a `Bool` condition panics (`none`) on exactly the inputs
the claim says it must not fail on — a JSON boolean context scalar and the
string-list acceptable values. -/
theorem bool_operator_panics :
    BoolFunc (GoAny.goBool true) (GoAny.goStringList ["true"]) = none
    ∧ ConditionMather [("acs:MFAPresent", GoAny.goBool true)]
        [("Bool", [("acs:MFAPresent", ["true"])])] = none := by
  refine ⟨rfl, rfl⟩

/-
Claim C5: literal pattern elements require exact equality.
-/

/-- C5: for a pattern element (a comma-free string, as elements of the
comma-separated pattern list are) containing no `*`, `Matches` returns
true exactly when the candidate equals the element character for
character, and the error is nil either way. -/
theorem literal_pattern_exact_equality (S P : List Char)
    (hstar : '*' ∉ P) (hcomma : ',' ∉ P) :
    ((Matches S P).1 = true ↔ S = P) ∧ (Matches S P).2 = none := by
  have hsplit : splitOnChar ',' P = [P] := splitOnChar_of_not_mem hcomma
  unfold Matches MatchesSt
  rw [hsplit]
  by_cases hPS : P = S
  · subst hPS
    simp [matchesAux, hstar]
  · have hb : (P == S) = false := beq_eq_false_iff_ne.mpr hPS
    simp [matchesAux, hstar, hb]
    exact fun h => hPS h.symm

/-- Witness for C5 at concrete inputs. -/
theorem literal_pattern_exact_equality_witness :
    ('*' ∉ "ecs:RunInstances".data ∧ ',' ∉ "ecs:RunInstances".data)
    ∧ (((Matches "ecs:RunInstances".data "ecs:RunInstances".data).1 = true ↔
          "ecs:RunInstances".data = "ecs:RunInstances".data)
        ∧ (Matches "ecs:RunInstances".data "ecs:RunInstances".data).2 = none) :=
  ⟨by decide, literal_pattern_exact_equality _ _ (by decide) (by decide)⟩

/-
Claim C3: the date comparators.  Both sides are parsed as RFC3339 and the
parse error is silently discarded, but the degraded value is Go's zero
`Time` (January 1, year 1, UTC), not an always-non-matching sentinel: two
unparsable sides are `Equal`, and an unparsable left side is `Before`
every timestamp later than the zero time.
-/

/-- C3 counterexample: with both sides unparsable, `DateEquals` is
satisfied (both degrade to the zero time, and zero equals zero), so the
whole condition evaluates to `(true, nil)` — an unparsable date can
satisfy `DateEquals`.  The last conjuncts record the leniency of the
layout parser: a comma fractional-second separator and a single-digit
hour parse to the same instants as their strict forms. -/
theorem dateEquals_unparsable_matches :
    ConditionMather [("t", GoAny.goString "not-a-date")]
        [("DateEquals", [("t", ["also-not-a-date"])])] = some true
    ∧ parseRFC3339 "not-a-date".data = none
    ∧ parseRFC3339 "also-not-a-date".data = none
    ∧ parseRFC3339 "2024-01-10T00:00:00,5Z".data
        = parseRFC3339 "2024-01-10T00:00:00.5Z".data
    ∧ parseRFC3339 "2024-01-10T5:04:05Z".data
        = parseRFC3339 "2024-01-10T05:04:05Z".data
    ∧ parseRFC3339 "2024-01-10T00:00:00,5Z".data ≠ none
    ∧ ConditionMather [("t", GoAny.goString "2024-01-10T00:00:00,5Z")]
        [("DateEquals", [("t", ["2024-01-10T00:00:00.5Z"])])] = some true := by
  refine ⟨rfl, rfl, rfl, rfl, rfl, by decide, rfl⟩

/-- C3 amended: each date comparator parses both sides as RFC3339, an
unparsable side degrading silently to the zero timestamp (instant 0), and
compares the resulting instants chronologically against any acceptable
value.  Consequently two unparsable sides satisfy `DateEquals`, and an
unparsable context value satisfies `DateLessThan` against any acceptable
value parsing to an instant after the zero time. -/
theorem date_operators_zero_time_degrade (v : String) (vs : List String) :
    (DateEqualsFunc (GoAny.goString v) (GoAny.goStringList vs)
        = some (vs.any (fun b => timeParseDiscard v == timeParseDiscard b)))
    ∧ (DateNotEqualsFunc (GoAny.goString v) (GoAny.goStringList vs)
        = some (vs.any (fun b => !(timeParseDiscard v == timeParseDiscard b))))
    ∧ (DateLessThanFunc (GoAny.goString v) (GoAny.goStringList vs)
        = some (vs.any (fun b => decide (timeParseDiscard v < timeParseDiscard b))))
    ∧ (DateLessThanEqualsFunc (GoAny.goString v) (GoAny.goStringList vs)
        = some (vs.any (fun b =>
            decide (timeParseDiscard v < timeParseDiscard b)
              || timeParseDiscard v == timeParseDiscard b)))
    ∧ (DateGreaterThanFunc (GoAny.goString v) (GoAny.goStringList vs)
        = some (vs.any (fun b => decide (timeParseDiscard b < timeParseDiscard v))))
    ∧ (DateGreaterThanEqualsFunc (GoAny.goString v) (GoAny.goStringList vs)
        = some (vs.any (fun b =>
            decide (timeParseDiscard b < timeParseDiscard v)
              || timeParseDiscard v == timeParseDiscard b)))
    ∧ (∀ b : String, parseRFC3339 v.data = none → parseRFC3339 b.data = none →
        DateEqualsFunc (GoAny.goString v) (GoAny.goStringList [b]) = some true)
    ∧ (∀ (b : String) (t : Int), parseRFC3339 v.data = none → parseRFC3339 b.data = some t →
        0 < t → DateLessThanFunc (GoAny.goString v) (GoAny.goStringList [b]) = some true) := by
  refine ⟨rfl, rfl, rfl, rfl, rfl, rfl, ?_, ?_⟩
  · intro b h1 h2
    simp [DateEqualsFunc, asString, asStringList, anyMatch, timeParseDiscard, h1, h2]
  · intro b t h1 h2 ht
    simp [DateLessThanFunc, asString, asStringList, anyMatch, timeParseDiscard, h1, h2, ht]

/-- Witness for C3 amended at concrete inputs: an unparsable context value
is strictly before a parseable 2020 timestamp. -/
theorem date_operators_zero_time_degrade_witness :
    (parseRFC3339 "junk".data = none
      ∧ parseRFC3339 "2020-01-01T00:00:00Z".data = some 63713433600000000000
      ∧ (0 : Int) < 63713433600000000000)
    ∧ DateLessThanFunc (GoAny.goString "junk")
        (GoAny.goStringList ["2020-01-01T00:00:00Z"]) = some true :=
  ⟨⟨by decide, by decide, by decide⟩,
    (date_operators_zero_time_degrade "junk" ["2020-01-01T00:00:00Z"]).2.2.2.2.2.2.2
      "2020-01-01T00:00:00Z" 63713433600000000000 (by decide) (by decide) (by decide)⟩

/-
Claim C4: unknown operators and absent attributes resolve to `(false, nil)`.
True for the entries themselves, but a comparator panic (claims C1/C2) in
an entry evaluated earlier pre-empts the fail-closed return.
-/

/-- If an operator block evaluates to `true`, every attribute it names is
present in the context. -/
theorem evalConditionValue_true_present (ctx : ConditionContext)
    (fn : GoAny → GoAny → Option Bool) :
    ∀ cond : ConditionValue, evalConditionValue ctx fn cond = some true →
      ∀ kv ∈ cond, (lookupCtx ctx kv.1).isSome := by
  intro cond
  induction cond with
  | nil => intro _ kv hkv; cases hkv
  | cons e rest ih =>
      rcases e with ⟨condKey, v1⟩
      intro hev kv hkv
      rcases hlk : lookupCtx ctx condKey with _ | cv
      · simp [evalConditionValue, hlk] at hev
      · rcases hfn : fn cv (GoAny.goStringList v1) with _ | b
        · simp [evalConditionValue, hlk, hfn] at hev
        · cases b with
          | false => simp [evalConditionValue, hlk, hfn] at hev
          | true =>
              rcases List.mem_cons.mp hkv with h | h
              · subst h; simp [hlk]
              · refine ih ?_ kv h
                simpa [evalConditionValue, hlk, hfn] using hev

/-- C4 counterexample: a decodable condition containing an unknown
operator name (`"NoSuchOperator"`), evaluated against a decodable context,
for which `ConditionMather` does not return `(false, nil)`: the `Bool`
block iterated first panics (claim C2) before the unknown operator is
reached. -/
theorem unknown_operator_preempted_by_panic :
    ConditionMather [("k", GoAny.goBool true)]
        [("Bool", [("k", ["true"])]), ("NoSuchOperator", [("k", ["v"])])] = none
    ∧ conditionOperatorFuncMap "NoSuchOperator" = none := by
  refine ⟨rfl, rfl⟩

/-- C4 amended: whenever the decoded condition contains an operator name
outside the known set, or a known-operator block naming an attribute
absent from the context, `ConditionMather` returns `false` with a nil
error — unless a comparator type-assertion panic in an earlier entry
pre-empts the evaluation; it never returns `true` and never a non-nil
error. -/
theorem semantic_non_match_false_or_panic (ctx : ConditionContext) :
    ∀ conds : Condition,
      (hasUnknownOperator conds || hasAbsentAttribute ctx conds) = true →
      ConditionMather ctx conds = some false ∨ ConditionMather ctx conds = none := by
  intro conds
  induction conds with
  | nil => intro h; simp [hasUnknownOperator, hasAbsentAttribute] at h
  | cons e rest ih =>
      rcases e with ⟨k, cond⟩
      intro h
      rcases hop : conditionOperatorFuncMap k with _ | fn
      · left; simp [ConditionMather, hop]
      · rcases hev : evalConditionValue ctx fn cond with _ | b
        · right; simp [ConditionMather, hop, hev]
        · cases b with
          | false => left; simp [ConditionMather, hop, hev]
          | true =>
              simp only [ConditionMather, hop, hev]
              apply ih
              simp [hasUnknownOperator, hasAbsentAttribute, List.any_cons, hop] at h
              simp [hasUnknownOperator, hasAbsentAttribute]
              rcases h with h | ⟨a, ⟨x, hmem⟩, hnone⟩ | h
              · exact Or.inl h
              · exact absurd (evalConditionValue_true_present ctx fn cond hev (a, x) hmem)
                  (by simp [hnone])
              · exact Or.inr h

/-- Witness for C4 amended at a concrete input: an unknown operator alone
in the condition yields `(false, nil)`. -/
theorem semantic_non_match_false_or_panic_witness :
    (hasUnknownOperator [("NoSuchOperator", [("k", ["v"])])]
        || hasAbsentAttribute [] [("NoSuchOperator", [("k", ["v"])])]) = true
    ∧ (ConditionMather [] [("NoSuchOperator", [("k", ["v"])])] = some false
        ∨ ConditionMather [] [("NoSuchOperator", [("k", ["v"])])] = none) :=
  ⟨by decide, semantic_non_match_false_or_panic [] [("NoSuchOperator", [("k", ["v"])])] (by decide)⟩

/-
Claim C8: delimiter-balance validation in the template compiler.
-/

/-- The error outcome of the `delimiterIndices` loop depends only on the
remaining input and the current (non-negative) nesting level, and agrees
with the claim's counter walk: a close at counter zero, or a final
non-zero counter, is exactly the unbalanced-braces error. -/
theorem delimiterIndicesAux_isError (delimiterStart delimiterEnd : Char) :
    ∀ (s : List Char) (i : Nat) (level : Int) (idx : Nat) (idxs : List Nat), 0 ≤ level →
      isError (delimiterIndicesAux delimiterStart delimiterEnd s i level idx idxs)
        = unbalancedDelims delimiterStart delimiterEnd s level := by
  intro s
  induction s with
  | nil =>
      intro i level idx idxs _
      by_cases h : level = 0 <;> simp [delimiterIndicesAux, unbalancedDelims, isError, h]
  | cons c cs ih =>
      intro i level idx idxs hlev
      by_cases hs : c = delimiterStart
      · simp only [delimiterIndicesAux, unbalancedDelims, if_pos hs]
        exact ih (i + 1) (level + 1) _ idxs (by omega)
      · by_cases he : c = delimiterEnd
        · simp only [delimiterIndicesAux, unbalancedDelims, if_neg hs, if_pos he]
          by_cases h0 : level = 0
          · have h1 : ¬ level - 1 = 0 := by omega
            have h2 : level - 1 < 0 := by omega
            simp [h0, h1, h2, isError]
          · have h2 : ¬ level - 1 < 0 := by omega
            by_cases h1 : level - 1 = 0
            · simp only [if_pos h1, if_neg h0]
              exact ih (i + 1) (level - 1) idx _ (by omega)
            · simp only [if_neg h1, if_neg h2, if_neg h0, if_false]
              exact ih (i + 1) (level - 1) idx idxs (by omega)
        · simp only [delimiterIndicesAux, unbalancedDelims, if_neg hs, if_neg he]
          exact ih (i + 1) level idx idxs hlev

/-- C8: `delimiterIndices` reports the unbalanced-braces error exactly on
the templates the claim's counter walk rejects (a close delimiter with
the counter already at zero, or a final non-zero counter), `CompileRegex`
checks this before assembling anything and propagates the error, and the
claim's example `"foo:<bar"` fails at compile time. -/
theorem compileRegex_unbalanced_error :
    (∀ (tpl : List Char) (delimiterStart delimiterEnd : Char),
        isError (delimiterIndices tpl delimiterStart delimiterEnd)
            = unbalancedDelims delimiterStart delimiterEnd tpl 0
        ∧ (unbalancedDelims delimiterStart delimiterEnd tpl 0 = true →
            isError (CompileRegex tpl delimiterStart delimiterEnd) = true))
    ∧ isError (CompileRegex "foo:<bar".data '<' '>') = true := by
  constructor
  · intro tpl ds de
    have hbase := delimiterIndicesAux_isError ds de tpl 0 0 0 [] le_rfl
    refine ⟨hbase, fun hunb => ?_⟩
    have herr : isError (delimiterIndices tpl ds de) = true := hbase.trans hunb
    unfold CompileRegex
    rcases hd : delimiterIndices tpl ds de with e | idxs
    · rfl
    · rw [hd] at herr; simp [isError] at herr
  · decide

/-- Witness for C8 at the claim's example template. -/
theorem compileRegex_unbalanced_error_witness :
    unbalancedDelims '<' '>' "foo:<bar".data 0 = true
    ∧ isError (CompileRegex "foo:<bar".data '<' '>') = true :=
  ⟨by decide, (compileRegex_unbalanced_error.1 "foo:<bar".data '<' '>').2 (by decide)⟩

/-
Claim C6: wildcard pattern elements.  The compiled `.*` matches runs of
arbitrary characters except the line feed (regex `.`), so the claim's
"zero or more arbitrary characters" fails on candidates containing a
newline; on newline-free candidates the compiled pattern agrees with the
declarative wildcard semantics `GlobMatches`.
-/

/-- The `.*` backtracking loop succeeds exactly when some non-newline
prefix can be consumed so that the continuation accepts the rest. -/
theorem starLoop_eq_true_iff (k : List Char → Bool) :
    ∀ xs : List Char, starLoop k xs = true ↔
      ∃ filler rest, xs = filler ++ rest ∧ (∀ c ∈ filler, c ≠ '\n') ∧ k rest = true := by
  intro xs
  induction xs with
  | nil =>
      constructor
      · intro h
        exact ⟨[], [], rfl, by simp, h⟩
      · rintro ⟨filler, rest, heq, -, hk⟩
        rcases List.append_eq_nil.mp heq.symm with ⟨rfl, rfl⟩
        exact hk
  | cons x xs ih =>
      constructor
      · intro h
        rcases Bool.or_eq_true_iff.mp h with h | h
        · exact ⟨[], x :: xs, rfl, by simp, h⟩
        · rcases Bool.and_eq_true_iff.mp h with ⟨hx, hrec⟩
          rcases ih.mp hrec with ⟨filler, rest, heq, hnl, hk⟩
          refine ⟨x :: filler, rest, by simp [heq], ?_, hk⟩
          intro c hc
          rcases List.mem_cons.mp hc with rfl | hc
          · intro hcn
            subst hcn
            simp at hx
          · exact hnl c hc
      · rintro ⟨filler, rest, heq, hnl, hk⟩
        cases filler with
        | nil =>
            simp only [List.nil_append] at heq
            subst heq
            exact Bool.or_eq_true_iff.mpr (Or.inl hk)
        | cons f fs =>
            simp only [List.cons_append, List.cons.injEq] at heq
            rcases heq with ⟨rfl, heq⟩
            refine Bool.or_eq_true_iff.mpr (Or.inr (Bool.and_eq_true_iff.mpr ⟨?_, ?_⟩))
            · have hx := hnl x (List.mem_cons_self x fs)
              simp [hx]
            · exact ih.mpr ⟨fs, rest, heq, fun c hc => hnl c (List.mem_cons_of_mem x hc), hk⟩

/-- The compiled wildcard matcher agrees with the declarative wildcard
semantics. -/
theorem globMatch_iff_globMatches :
    ∀ (ps : List GlobPart) (xs : List Char), globMatch ps xs = true ↔ GlobMatches ps xs := by
  intro ps
  induction ps with
  | nil =>
      intro xs
      cases xs with
      | nil => simp [globMatch]; exact GlobMatches.nil
      | cons x xs =>
          simp [globMatch]
          intro h
          cases h
  | cons p ps ih =>
      intro xs
      cases p with
      | lit c =>
          cases xs with
          | nil =>
              simp [globMatch]
              intro h
              cases h
          | cons x rest =>
              simp only [globMatch, Bool.and_eq_true_iff, beq_iff_eq]
              constructor
              · rintro ⟨rfl, h⟩
                exact GlobMatches.lit ((ih rest).mp h)
              · intro h
                cases h with
                | lit h => exact ⟨rfl, (ih rest).mpr h⟩
      | star =>
          simp only [globMatch]
          rw [starLoop_eq_true_iff]
          constructor
          · rintro ⟨filler, rest, rfl, hnl, hk⟩
            exact GlobMatches.star filler hnl ((ih rest).mp hk)
          · intro h
            cases h with
            | star filler hnl hrest =>
                exact ⟨filler, _, rfl, hnl, (ih _).mpr hrest⟩

/-- No newline in a list: its last element is not a newline. -/
theorem getLast?_ne_of_not_mem {s : List Char} (h : '\n' ∉ s) :
    (s.getLast? == some '\n') = false := by
  induction s with
  | nil => rfl
  | cons x xs ih =>
      cases xs with
      | nil =>
          have hx : ¬ x = '\n' := fun hc => h (by simp [hc])
          simp [hx]
      | cons y ys =>
          rw [List.getLast?_cons_cons]
          exact ih (fun hm => h (List.mem_cons_of_mem x hm))

/-- A single wildcard-bearing pattern element: the loop compiles it and
evaluates the compiled expression against the needle, with a nil error
either way. -/
theorem matchesAux_single_star (S P : List Char) (hP : '*' ∈ P) :
    (matchesAux S [] [P]).1 = (regexp2MatchString (CompileWildcardRegex P) S, none) := by
  rcases h : regexp2MatchString (CompileWildcardRegex P) S with _ | _ <;>
    simp [matchesAux, hP, cacheGet, h]

/-- C6 counterexample: the pattern `"*"` compiles to `^.*$` and regex `.`
does not match a line feed, so the non-empty candidate `"a\nb"` does not
match — the claim's "Matches(S, \"*\") is true for every non-empty
candidate S" fails. -/
theorem star_pattern_newline_candidate :
    Matches "a\nb".data "*".data = (false, none)
    ∧ "a\nb".data ≠ [] := by
  refine ⟨by decide, by decide⟩

/-- C6 amended: a wildcard pattern element compiles to an anchored
expression in which every non-`*` byte of the pattern is quoted to a
literal rune of that byte's value (ASCII literals match themselves;
multi-byte characters are split into bytes and then generally fail to
match their own text, witnessed by the last conjunct) and each `*`
becomes `.*` (zero or more characters excluding the line feed); both
concrete examples of the claim hold, `"*"` matches every non-empty
newline-free candidate, and on newline-free candidates the whole-match
semantics agrees with the reading `GlobMatches` of the compiled
pattern. -/
theorem wildcard_match_characterization :
    Matches "ecs:DescribeInstances".data "ecs:Describe*".data = (true, none)
    ∧ Matches "ecs:CreateInstance".data "ecs:Describe*".data = (false, none)
    ∧ (∀ S : List Char, S ≠ [] → '\n' ∉ S → Matches S ['*'] = (true, none))
    ∧ (∀ P S : List Char, '*' ∈ P → ',' ∉ P → '\n' ∉ S →
        ((Matches S P).1 = true ↔ GlobMatches (CompileWildcardRegex P) S)
          ∧ (Matches S P).2 = none)
    ∧ Matches "éx".data "é*".data = (false, none) := by
  refine ⟨by decide, by decide, ?_, ?_, by decide⟩
  · intro S hne hnl
    have hstar : globMatch [GlobPart.star] S = true := by
      simp only [globMatch]
      refine (starLoop_eq_true_iff _ S).mpr ⟨S, [], by simp, ?_, rfl⟩
      intro c hc
      exact fun hcn => hnl (hcn ▸ hc)
    have hms : regexp2MatchString (CompileWildcardRegex ['*']) S = true := by
      have : CompileWildcardRegex ['*'] = [GlobPart.star] := rfl
      rw [this]
      unfold regexp2MatchString
      simp [hstar]
    unfold Matches MatchesSt
    have hsplit : splitOnChar ',' ['*'] = [['*']] := rfl
    rw [hsplit]
    simp [matchesAux, cacheGet, hms]
  · intro P S hP hcomma hnl
    have hsplit : splitOnChar ',' P = [P] := splitOnChar_of_not_mem hcomma
    have hms : regexp2MatchString (CompileWildcardRegex P) S
        = globMatch (CompileWildcardRegex P) S := by
      unfold regexp2MatchString
      rw [getLast?_ne_of_not_mem hnl]
      simp
    have hM : Matches S P = (regexp2MatchString (CompileWildcardRegex P) S, none) := by
      unfold Matches MatchesSt
      rw [hsplit]
      exact matchesAux_single_star S P hP
    rw [hM, hms]
    exact ⟨globMatch_iff_globMatches _ _, rfl⟩

/-- Witness for C6 amended: the universal `"*"` clause at a concrete
newline-free candidate. -/
theorem wildcard_match_characterization_witness :
    ("anything".data ≠ [] ∧ '\n' ∉ "anything".data)
    ∧ Matches "anything".data ['*'] = (true, none) :=
  ⟨⟨by decide, by decide⟩,
    wildcard_match_characterization.2.2.1 "anything".data (by decide) (by decide)⟩

/-
Claim C7: cache independence of the matcher.
-/

/-- On any coherent cache state the matcher loop computes the cache-free
reference result with a nil error, and leaves the cache coherent. -/
theorem matchesAux_eq_pure (needle : List Char) :
    ∀ (hs : List (List Char)) (cache : RegexpCache), CoherentCache cache →
      (matchesAux needle cache hs).1 = (matchesPure needle hs, none)
      ∧ CoherentCache (matchesAux needle cache hs).2 := by
  intro hs
  induction hs with
  | nil => intro cache hcoh; exact ⟨rfl, hcoh⟩
  | cons h rest ih =>
      intro cache hcoh
      by_cases hstar : '*' ∈ h
      · rcases hget : cacheGet cache h with _ | reg
        · have hcoh1 : CoherentCache (cacheSet cache h (CompileWildcardRegex h)) := by
            intro e he
            rcases List.mem_cons.mp he with rfl | he
            · rfl
            · exact hcoh e he
          rcases hre : regexp2MatchString (CompileWildcardRegex h) needle with _ | _
          · have := ih (cacheSet cache h (CompileWildcardRegex h)) hcoh1
            simpa [matchesAux, matchesPure, hstar, hget, hre] using this
          · exact ⟨by simp [matchesAux, matchesPure, hstar, hget, hre],
              by simpa [matchesAux, hstar, hget, hre] using hcoh1⟩
        · have hreg : reg = CompileWildcardRegex h := by
            rcases Option.map_eq_some'.mp hget with ⟨e, hfind, hsnd⟩
            have hmem := List.mem_of_find?_eq_some hfind
            have hpred := List.find?_some hfind
            have hfst : e.1 = h := by simpa [beq_iff_eq] using hpred
            have := hcoh e hmem
            rw [← hsnd, this, hfst]
          subst hreg
          rcases hre : regexp2MatchString (CompileWildcardRegex h) needle with _ | _
          · have := ih cache hcoh
            simpa [matchesAux, matchesPure, hstar, hget, hre] using this
          · exact ⟨by simp [matchesAux, matchesPure, hstar, hget, hre],
              by simpa [matchesAux, hstar, hget, hre] using hcoh⟩
      · by_cases heq : h = needle
        · subst heq
          exact ⟨by simp [matchesAux, matchesPure, hstar], by
            simpa [matchesAux, hstar] using hcoh⟩
        · have := ih cache hcoh
          have hb : (h == needle) = false := beq_eq_false_iff_ne.mpr heq
          simpa [matchesAux, matchesPure, hstar, hb] using this

/-- C7: the result of `Matches` is the same on every coherent cache state
(in particular with and without any set of previously compiled or evicted
entries): the cache is a pure optimization and repeated calls are
idempotent. -/
theorem matches_cache_independent (c1 c2 : RegexpCache)
    (h1 : CoherentCache c1) (h2 : CoherentCache c2) (needle key2 : List Char) :
    (MatchesSt c1 needle key2).1 = (MatchesSt c2 needle key2).1 := by
  unfold MatchesSt
  rw [(matchesAux_eq_pure needle _ c1 h1).1, (matchesAux_eq_pure needle _ c2 h2).1]

/-- Witness for C7: a cache already holding the compiled pattern and the
empty cache give the same answer. -/
theorem matches_cache_independent_witness :
    (CoherentCache [("ecs:Describe*".data, CompileWildcardRegex "ecs:Describe*".data)]
      ∧ CoherentCache [])
    ∧ (MatchesSt [("ecs:Describe*".data, CompileWildcardRegex "ecs:Describe*".data)]
          "ecs:DescribeInstances".data "ecs:Describe*".data).1
        = (MatchesSt [] "ecs:DescribeInstances".data "ecs:Describe*".data).1 :=
  ⟨⟨by unfold CoherentCache; decide, by unfold CoherentCache; decide⟩,
    matches_cache_independent _ _ (by unfold CoherentCache; decide)
      (by unfold CoherentCache; decide) _ _⟩

/-
Claim C9: the IP address operator.
-/

/-- C9: a context value that does not parse as an IP yields `false`; for a
parsing context value the operator matches exactly when some acceptable
value is a literal IP equal to it (`net.IP.Equal`), or is no literal IP
but a CIDR block containing it (a value parsing as neither never
matches); the claim's two concrete CIDR evaluations through the condition
evaluator; and the IPv6 cases of `net.ParseIP`: an IPv6 context value
matches its own literal, and an IPv4-mapped IPv6 acceptable value matches
the equal dotted-decimal context value. -/
theorem ipAddress_operator_characterization :
    (∀ (v : String) (vs : List String), ParseIP v.data = none →
        IPAddressFunc (GoAny.goString v) (GoAny.goStringList vs) = some false)
    ∧ (∀ (v : String) (vs : List String) (req : List Nat), ParseIP v.data = some req →
        (IPAddressFunc (GoAny.goString v) (GoAny.goStringList vs) = some true ↔
          ∃ pv ∈ vs,
            (∃ pip, ParseIP pv.data = some pip ∧ ipEqual req pip = true)
            ∨ (ParseIP pv.data = none
                ∧ ∃ a n, ParseCIDR pv.data = some (a, n) ∧ ipNetContains a n req = true)))
    ∧ ConditionMather [("acs:SourceIp", GoAny.goString "192.168.234.50")]
        [("IPAddress", [("acs:SourceIp", ["192.168.234.0/24"])])] = some true
    ∧ ConditionMather [("acs:SourceIp", GoAny.goString "203.0.113.9")]
        [("IPAddress", [("acs:SourceIp", ["192.168.234.0/24"])])] = some false
    ∧ ConditionMather [("acs:SourceIp", GoAny.goString "::1")]
        [("IPAddress", [("acs:SourceIp", ["::1"])])] = some true
    ∧ ConditionMather [("acs:SourceIp", GoAny.goString "1.2.3.4")]
        [("IPAddress", [("acs:SourceIp", ["::ffff:1.2.3.4"])])] = some true := by
  refine ⟨?_, ?_, by decide, by decide, by decide, by decide⟩
  · intro v vs h
    simp [IPAddressFunc, asString, asStringList, h]
  · intro v vs req h
    simp [IPAddressFunc, asString, asStringList, h, anyMatch, List.any_eq_true]
    refine exists_congr fun pv => and_congr_right fun _ => ?_
    rcases hp : ParseIP pv.data with _ | pip
    · rcases hc : ParseCIDR pv.data with _ | an
      · simp [hp, hc]
      · rcases an with ⟨a, n⟩
        simp [hp, hc]
        constructor
        · intro h2
          exact ⟨a, n, ⟨rfl, rfl⟩, h2⟩
        · rintro ⟨a1, n1, ⟨rfl, rfl⟩, h2⟩
          exact h2
    · simp [hp]

/-- Witness for C9: the non-parsing context value clause at a concrete
input, via the theorem. -/
theorem ipAddress_operator_characterization_witness :
    ParseIP "not-an-ip".data = none
    ∧ IPAddressFunc (GoAny.goString "not-an-ip")
        (GoAny.goStringList ["192.168.234.0/24"]) = some false :=
  ⟨by decide,
    ipAddress_operator_characterization.1 "not-an-ip" ["192.168.234.0/24"] (by decide)⟩

end ValhallaPolicy
